import Mathlib

/-!
Verification development for the Twi DSL playground prototype
(`src/app.py`): a line-based translator from the Twi DSL to Python
source text, a syntax validator, a substring safety gate, and a
subprocess runner with output truncation.

The translator (`TwiParser.translate`), the gate and runner post
processing, and the `/api/execute` control flow are embedded as
executable Lean functions over `List Char` (one `Char` per Unicode
code point, matching Python `str` indexing).  External collaborators
that are not part of the repository — the CPython `ast.parse`
validator and the spawned child process — are represented by explicit
parameters (a validation oracle, the captured raw output streams).
-/

/-! ## Python string primitives

Executable models of the Python `str` operations the source uses:
`strip`, `splitlines`, `replace` (with and without a count), slicing,
`startswith` / `endswith`, and the two regular expressions.  All work
on `List Char`; Python strings index by code point exactly as
`String.data` does. -/

/-- Whitespace recognized by Python `str.strip()` / regex `\s`
(restricted to the ASCII and Latin-1 whitespace plus the BMP
separator code points; other exotic Unicode spaces never occur in
this development). -/
def pyIsSpace (c : Char) : Bool :=
  [' ', '\t', '\n', '\r', '\x0b', '\x0c',
   '\x1c', '\x1d', '\x1e', '\x1f', '\x85', '\xa0', ' ', ' '].contains c

/-- Line boundary code points recognized by Python `str.splitlines()`. -/
def isLineBoundary (c : Char) : Bool :=
  ['\n', '\r', '\x0b', '\x0c', '\x1c', '\x1d', '\x1e', '\x85', ' ', ' '].contains c

/-- Python `s.strip()`: drop leading and trailing whitespace. -/
def pyStrip (s : List Char) : List Char :=
  ((s.dropWhile pyIsSpace).reverse.dropWhile pyIsSpace).reverse

/-- Worker for `pySplitlines`; `acc` holds the current line reversed.
Mirrors Python `str.splitlines()`: `\r\n` is a single boundary and a
trailing boundary does not open an empty final line. -/
def pySplitlinesAux : List Char → List Char → List (List Char)
  | acc, [] => [acc.reverse]
  | acc, '\r' :: '\n' :: [] => [acc.reverse]
  | acc, '\r' :: '\n' :: t => acc.reverse :: pySplitlinesAux [] t
  | acc, c :: t =>
    if isLineBoundary c then
      match t with
      | [] => [acc.reverse]
      | _ :: _ => acc.reverse :: pySplitlinesAux [] t
    else
      pySplitlinesAux (c :: acc) t

/-- Python `s.splitlines()` (empty string gives no lines). -/
def pySplitlines (s : List Char) : List (List Char) :=
  match s with
  | [] => []
  | _ :: _ => pySplitlinesAux [] s

/-- Python `s.replace(pat, repl, 1)`: replace the first occurrence of
`pat`, if any.  (An empty `pat` would prepend `repl` in Python; the
source only ever uses non-empty patterns, and for them this model is
exact.) -/
def pyReplaceFirst (pat repl : List Char) : List Char → List Char
  | [] => []
  | c :: cs =>
    if pat ≠ [] ∧ pat.isPrefixOf (c :: cs) then
      repl ++ (c :: cs).drop pat.length
    else
      c :: pyReplaceFirst pat repl cs

/-- Fuelled worker for `pyReplaceAll`; each fuel unit consumes at
least one character, so `fuel = s.length` is always enough. -/
def pyReplaceAllAux : Nat → List Char → List Char → List Char → List Char
  | 0, _, _, s => s
  | _, _, _, [] => []
  | fuel + 1, pat, repl, c :: cs =>
    if pat ≠ [] ∧ pat.isPrefixOf (c :: cs) then
      repl ++ pyReplaceAllAux fuel pat repl ((c :: cs).drop pat.length)
    else
      c :: pyReplaceAllAux fuel pat repl cs

/-- Python `s.replace(pat, repl)`: replace every (left-to-right,
non-overlapping) occurrence of `pat`. -/
def pyReplaceAll (pat repl s : List Char) : List Char :=
  pyReplaceAllAux s.length pat repl s

/-- Python `pat in s`: substring containment. -/
def listContainsSub (pat s : List Char) : Bool :=
  (List.range (s.length + 1)).any fun i => pat.isPrefixOf (s.drop i)

/-- Substring containment on `String`, as used by the safety gate. -/
def containsSubStr (pat s : String) : Bool :=
  listContainsSub pat.data s.data

/-- Regex `\w` (ASCII range; the loop binder in the iteration
construct is an ASCII identifier in all uses). -/
def pyIsWordChar (c : Char) : Bool :=
  c.isAlphanum || c = '_'

/-- Python `"    " * n` (empty for a non-positive count). -/
def pyIndent (n : Int) : List Char :=
  List.replicate (4 * n.toNat) ' '

/-! ## The translator (`TwiParser.translate`, `src/app.py` lines 55-151) -/

/-- `"siesie "`, the assignment construct keyword. -/
def kwSiesie : List Char := "siesie ".data

/-- `"sɔ hwɛ "`, the bare-print construct keyword. -/
def kwShow : List Char := "sɔ hwɛ ".data

/-- `"bɔ mmirika wɔ "`, the literal head of the iteration regex. -/
def kwFor : List Char := "bɔ mmirika wɔ ".data

/-- `" kyekyere "`, the literal separator inside the iteration regex. -/
def kyekyereSep : List Char := " kyekyere ".data

/-- `"yɛ adwuma "`, the function-definition construct keyword. -/
def kwDef : List Char := "yɛ adwuma ".data

/-- Matcher for the quoted-print regex `^ka\s+"([^"]*)"$`
(`src/app.py` line 77): the line must be `ka`, one or more whitespace
characters, then a double-quoted run of quote-free characters reaching
the end of the line.  Returns the quoted content (group 1). -/
def matchKa (line : List Char) : Option (List Char) :=
  if "ka".data.isPrefixOf line then
    let rest := line.drop 2
    let ws := rest.takeWhile pyIsSpace
    if ws.isEmpty then none
    else
      match rest.drop ws.length with
      | [] => none
      | q :: t =>
        if q = '"' then
          let mid := t.takeWhile (fun c => c != '"')
          if t.drop mid.length = ['"'] then some mid else none
        else none
  else none

/-- Greedy split for the iteration regex body: given the text after
the literal `bɔ mmirika wɔ `, find the split `A ++ " kyekyere " ++ w ++ tail`
with `A` non-empty and as long as possible (the greedy `(.+)`) and `w`
the maximal non-empty run of word characters after the separator (the
greedy `(\w+)`; `re.match` leaves any `tail` unconstrained).  Returns
`(A, w)` — groups 1 and 2. -/
def forSplit (rest : List Char) : Option (List Char × List Char) :=
  (List.range rest.length).reverse.findSome? fun i =>
    if i = 0 then none
    else if kyekyereSep.isPrefixOf (rest.drop i) then
      let w := (rest.drop (i + kyekyereSep.length)).takeWhile pyIsWordChar
      if w.isEmpty then none else some (rest.take i, w)
    else none

/-- Matcher for the iteration regex
`re.match(r"bɔ mmirika wɔ (.+) kyekyere (\w+)", line)`
(`src/app.py` line 121).  Returns `(group(1).strip(), group(2).strip())`,
the iterable expression and the loop binder. -/
def matchFor (line : List Char) : Option (List Char × List Char) :=
  if kwFor.isPrefixOf line then
    match forSplit (line.drop kwFor.length) with
    | some (a, w) => some (pyStrip a, pyStrip w)
    | none => none
  else none

/-- The fallback lexical substitutions: `self.KEYWORDS` applied in
dict insertion order (`src/app.py` lines 46-50 and 142-145). -/
def applyKeywords (line : List Char) : List Char :=
  pyReplaceAll "ka ho".data "+".data
    (pyReplaceAll "atɔkyɛ".data "False".data
      (pyReplaceAll "nokware".data "True".data line))

/-- One iteration of the translator loop body acting on an already
stripped line: the `elif` chain of `src/app.py` lines 63-148, in
source order.  Returns the emitted Python line and the updated
indentation counter.  The counter is an `Int`, as in Python; `nanso`
clamps it with `max (ind - 1) 0` exactly as line 105 does. -/
def lineStep (ind : Int) (line : List Char) : List Char × Int :=
  if line.isEmpty then
    ([], ind)
  else if kwSiesie.isPrefixOf line then
    (pyIndent ind ++ pyReplaceFirst kwSiesie [] line, ind)
  else
    match matchKa line with
    | some msg => (pyIndent ind ++ "print(\"".data ++ msg ++ "\")".data, ind)
    | none =>
      if kwShow.isPrefixOf line then
        (pyIndent ind ++ "print(".data ++ pyReplaceFirst kwShow [] line ++ [')'], ind)
      else if "sɛ ".data.isPrefixOf line && " a".data.isSuffixOf line then
        (pyIndent ind ++ "if ".data ++ pyStrip ((line.drop 2).dropLast.dropLast) ++ [':'], ind + 1)
      else if line = "nanso".data then
        (pyIndent (max (ind - 1) 0) ++ "else:".data, max (ind - 1) 0 + 1)
      else if line = "kyerɛ me".data then
        (pyIndent ((ind + 1) - 1) ++ "# kyerɛ me (indent)".data, ind + 1)
      else
        match matchFor line with
        | some (iterable, v) =>
          (pyIndent ind ++ "for ".data ++ v ++ " in ".data ++ iterable ++ [':'], ind + 1)
        | none =>
          if kwDef.isPrefixOf line then
            let func := pyReplaceFirst kwDef [] line
            let func2 := if [':'].isSuffixOf func then func else func ++ [':']
            (pyIndent ind ++ "def ".data ++ func2, ind + 1)
          else
            (pyIndent ind ++ applyKeywords line, ind)

/-- The translator loop state: emitted Python lines, the
`twi_line ↦ py_line` mapping entries, and the indentation counter. -/
structure TState where
  py_lines : List (List Char)
  mapping : List (Nat × Nat)
  indent_level : Int
deriving DecidableEq

/-- Initial translator state (`src/app.py` lines 57-59). -/
def initState : TState := ⟨[], [], 0⟩

/-- One full iteration of the translator loop for source line number
`i` with raw text `raw`: strip the line, run the `elif` chain, append
the emitted line, and append the one mapping entry
`(i, len(py_lines))` computed after the append. -/
def stepLine (st : TState) (i : Nat) (raw : List Char) : TState :=
  let line := pyStrip raw
  let res := lineStep st.indent_level line
  { py_lines := st.py_lines ++ [res.1]
    mapping := st.mapping ++ [(i, st.py_lines.length + 1)]
    indent_level := res.2 }

/-- The translator loop `for i, raw in enumerate(lines, start=1)`. -/
def runLines : Nat → TState → List (List Char) → TState
  | _, st, [] => st
  | i, st, raw :: rest => runLines (i + 1) (stepLine st i raw) rest

/-- All states the translator loop passes through (the initial state
and the state after each line), in order. -/
def runStates : Nat → TState → List (List Char) → List TState
  | _, st, [] => [st]
  | i, st, raw :: rest => st :: runStates (i + 1) (stepLine st i raw) rest

/-- Final translator state for a given source text:
`lines = twi_code.strip().splitlines()` then the loop. -/
def translateState (twi_code : String) : TState :=
  runLines 1 initState (pySplitlines (pyStrip twi_code.data))

/-- The `TranslationResult` pydantic model: the joined Python source
and the mapping (each dict `{"twi_line": a, "py_line": b}` modelled as
the pair `(a, b)`). -/
structure TranslationResult where
  python_code : String
  mapping : List (Nat × Nat)
deriving DecidableEq

namespace TwiParser

/-- `TwiParser.translate` (`src/app.py` lines 55-151). -/
def translate (twi_code : String) : TranslationResult :=
  { python_code := String.mk (List.intercalate ['\n'] (translateState twi_code).py_lines)
    mapping := (translateState twi_code).mapping }

end TwiParser

/-! ## The ordered recognizer table

A second, spec-side description of the same loop body: one recognizer
per construct, tried in the documented priority order with first match
winning.  Each recognizer takes the current indent and the stripped
line and either produces the emitted line plus the new indent, or
passes.  `lineStep` is proved equal to the first-match run of this
table (claim C1). -/

/-- Recognizer: blank line. -/
def recogBlank (ind : Int) (line : List Char) : Option (List Char × Int) :=
  if line.isEmpty then some ([], ind) else none

/-- Recognizer: assignment construct `siesie …`. -/
def recogAssign (ind : Int) (line : List Char) : Option (List Char × Int) :=
  if kwSiesie.isPrefixOf line then
    some (pyIndent ind ++ pyReplaceFirst kwSiesie [] line, ind)
  else none

/-- Recognizer: quoted-print construct `ka "…"`. -/
def recogQuotedPrint (ind : Int) (line : List Char) : Option (List Char × Int) :=
  (matchKa line).map fun msg =>
    (pyIndent ind ++ "print(\"".data ++ msg ++ "\")".data, ind)

/-- Recognizer: bare-print construct `sɔ hwɛ …`. -/
def recogShowVar (ind : Int) (line : List Char) : Option (List Char × Int) :=
  if kwShow.isPrefixOf line then
    some (pyIndent ind ++ "print(".data ++ pyReplaceFirst kwShow [] line ++ [')'], ind)
  else none

/-- Recognizer: conditional-open construct `sɛ … a`. -/
def recogCond (ind : Int) (line : List Char) : Option (List Char × Int) :=
  if "sɛ ".data.isPrefixOf line && " a".data.isSuffixOf line then
    some (pyIndent ind ++ "if ".data ++ pyStrip ((line.drop 2).dropLast.dropLast) ++ [':'], ind + 1)
  else none

/-- Recognizer: else construct `nanso`. -/
def recogElse (ind : Int) (line : List Char) : Option (List Char × Int) :=
  if line = "nanso".data then
    some (pyIndent (max (ind - 1) 0) ++ "else:".data, max (ind - 1) 0 + 1)
  else none

/-- Recognizer: explicit indent-hint construct `kyerɛ me`. -/
def recogIndentHint (ind : Int) (line : List Char) : Option (List Char × Int) :=
  if line = "kyerɛ me".data then
    some (pyIndent ((ind + 1) - 1) ++ "# kyerɛ me (indent)".data, ind + 1)
  else none

/-- Recognizer: iteration construct `bɔ mmirika wɔ … kyekyere …`. -/
def recogIter (ind : Int) (line : List Char) : Option (List Char × Int) :=
  (matchFor line).map fun p =>
    (pyIndent ind ++ "for ".data ++ p.2 ++ " in ".data ++ p.1 ++ [':'], ind + 1)

/-- Recognizer: function-definition construct `yɛ adwuma …`. -/
def recogFuncDef (ind : Int) (line : List Char) : Option (List Char × Int) :=
  if kwDef.isPrefixOf line then
    let func := pyReplaceFirst kwDef [] line
    let func2 := if [':'].isSuffixOf func then func else func ++ [':']
    some (pyIndent ind ++ "def ".data ++ func2, ind + 1)
  else none

/-- The construct recognizers in their fixed priority order. -/
def recognizers : List (Int → List Char → Option (List Char × Int)) :=
  [recogBlank, recogAssign, recogQuotedPrint, recogShowVar, recogCond,
   recogElse, recogIndentHint, recogIter, recogFuncDef]

/-! ## The runner (`run_code_subprocess`, `src/app.py` lines 170-206) -/

/-- `RUN_TIMEOUT` (`src/app.py` line 170). -/
def RUN_TIMEOUT : Nat := 4

/-- `MAX_OUTPUT_BYTES` (`src/app.py` line 171). -/
def MAX_OUTPUT_BYTES : Nat := 20000

/-- The dict returned by `run_code_subprocess`. -/
structure RunResult where
  stdout : List Char
  stderr : List Char
  timeout : Bool
  exit_code : Int
deriving DecidableEq

/-- `run_code_subprocess` result construction (`src/app.py` lines
182-201).  The spawned child process is external; it is represented by
the raw decoded streams `out` and `err` it produced, whether the wait
timed out, and its return code.  Both the timeout branch and the
normal branch truncate each stream to `MAX_OUTPUT_BYTES`. -/
def run_code_subprocess (out err : List Char) (timedOut : Bool) (returncode : Int) : RunResult :=
  if timedOut then
    { stdout := out.take MAX_OUTPUT_BYTES
      stderr := err.take MAX_OUTPUT_BYTES
      timeout := true
      exit_code := returncode }
  else
    { stdout := out.take MAX_OUTPUT_BYTES
      stderr := err.take MAX_OUTPUT_BYTES
      timeout := false
      exit_code := returncode }

/-! ## The execute endpoint (`api_execute`, `src/app.py` lines 231-265) -/

/-- What `api_execute` does with a request, up to (and including) the
decision to invoke the runner: a 400 for a missing body, a 400 syntax
error carrying the (partial) translated code, a 400 forbidden error
naming the offending denylist token, or the invocation of
`run_code_subprocess` on the given code with the given timeout. -/
inductive ExecOutcome where
  | errorProvide : ExecOutcome
  | syntaxError (message : String) (python_code : String) : ExecOutcome
  | forbidden (token : String) : ExecOutcome
  | run (python_code : String) (timeout : Nat) : ExecOutcome
deriving DecidableEq

/-- The denylist `forbidden` (`src/app.py` line 250), in source
order. -/
def forbiddenList : List String :=
  ["import os", "import sys", "__import__", "open(", "subprocess",
   "socket", "shutil", "os.system"]

/-- The tail of `api_execute` after a definite `python_code` is in
hand (`src/app.py` lines 244-255): validate first, then the substring
gate over the denylist in order, then the runner.  `validate` is the
external `ast.parse`-based `Emitter.validate`, modelled as an oracle
returning the success flag and the error message. -/
def apiExecuteValidated (validate : String → Bool × String)
    (python_code : String) (timeout : Nat) : ExecOutcome :=
  let v := validate python_code
  if v.1 then
    match forbiddenList.find? (fun f => containsSubStr f python_code) with
    | some f => .forbidden f
    | none => .run python_code timeout
  else
    .syntaxError v.2 python_code

/-- `api_execute` (`src/app.py` lines 231-265): choose the code
(pretranslated `python_code` wins; otherwise translate `twi_code`;
400 if neither is given), then validate, gate and run. -/
def api_execute (validate : String → Bool × String)
    (twi_code python_code : Option String) (timeout : Nat) : ExecOutcome :=
  match python_code, twi_code with
  | none, none => .errorProvide
  | none, some tw => apiExecuteValidated validate (TwiParser.translate tw).python_code timeout
  | some pc, _ => apiExecuteValidated validate pc timeout

/-! ## Helper lemmas -/

/-- The `elif` chain of the loop body is exactly a first-match run of
the ordered recognizer table, with the lexical-substitution fallback
when no recognizer matches. -/
lemma lineStep_eq_recognizers (ind : Int) (line : List Char) :
    lineStep ind line =
      (recognizers.findSome? fun f => f ind line).getD
        (pyIndent ind ++ applyKeywords line, ind) := by
  simp only [recognizers, List.findSome?_cons, List.findSome?_nil]
  simp only [recogBlank, recogAssign, recogQuotedPrint, recogShowVar, recogCond,
    recogElse, recogIndentHint, recogIter, recogFuncDef]
  unfold lineStep
  repeat' split <;> simp_all

/-- Every branch of the loop body keeps the indentation counter
non-negative. -/
lemma lineStep_indent_nonneg (ind : Int) (line : List Char) (h : 0 ≤ ind) :
    0 ≤ (lineStep ind line).2 := by
  unfold lineStep
  repeat' split
  all_goals dsimp only
  all_goals omega

/-- Every state the translator loop passes through has a non-negative
indentation counter, whatever the starting line number. -/
lemma runStates_nonneg : ∀ (ls : List (List Char)) (i : Nat) (st : TState),
    0 ≤ st.indent_level → ∀ s ∈ runStates i st ls, 0 ≤ s.indent_level := by
  intro ls
  induction ls with
  | nil =>
    intro i st h s hs
    simp only [runStates, List.mem_singleton] at hs
    exact hs ▸ h
  | cons raw rest ih =>
    intro i st h s hs
    simp only [runStates, List.mem_cons] at hs
    rcases hs with rfl | hs
    · exact h
    · refine ih (i + 1) (stepLine st i raw) ?_ s hs
      exact lineStep_indent_nonneg st.indent_level (pyStrip raw) h

/-- The loop appends exactly one emitted line and one mapping entry
per source line; the mapping entries enumerate the source lines from
`i` and the emitted lines from one past what is already emitted. -/
lemma runLines_py_mapping : ∀ (ls : List (List Char)) (i : Nat) (st : TState),
    (runLines i st ls).py_lines.length = st.py_lines.length + ls.length ∧
    (runLines i st ls).mapping =
      st.mapping ++ (List.range ls.length).map
        (fun k => (i + k, st.py_lines.length + k + 1)) := by
  intro ls
  induction ls with
  | nil => intro i st; simp [runLines]
  | cons raw rest ih =>
    intro i st
    have h := ih (i + 1) (stepLine st i raw)
    have hlen : (stepLine st i raw).py_lines.length = st.py_lines.length + 1 := by
      simp [stepLine]
    have hmap : (stepLine st i raw).mapping =
        st.mapping ++ [(i, st.py_lines.length + 1)] := rfl
    constructor
    · rw [runLines, h.1, hlen]
      simp [List.length_cons]
      omega
    · rw [runLines, h.2, hmap, hlen, List.append_assoc, List.singleton_append,
        List.length_cons, List.range_succ_eq_map, List.map_cons, List.map_map]
      congr 1
      congr 1
      all_goals try simp
      all_goals try (intro k hk; omega)

/-- `dropWhile` swallows a fully-satisfying block prepended to a
list. -/
lemma dropWhile_append_all {p : Char → Bool} (xs ys : List Char)
    (h : ∀ c ∈ xs, p c = true) :
    (xs ++ ys).dropWhile p = ys.dropWhile p := by
  rw [List.dropWhile_append]
  simp [List.dropWhile_eq_nil_iff.mpr h]

/-- Prepending whitespace does not change the stripped line. -/
lemma pyStrip_append_left (p x : List Char) (hp : ∀ c ∈ p, pyIsSpace c = true) :
    pyStrip (p ++ x) = pyStrip x := by
  unfold pyStrip
  rw [dropWhile_append_all p x hp]

/-- Appending whitespace does not change the stripped line. -/
lemma pyStrip_append_right (x q : List Char) (hq : ∀ c ∈ q, pyIsSpace c = true) :
    pyStrip (x ++ q) = pyStrip x := by
  unfold pyStrip
  rw [List.dropWhile_append]
  by_cases hx : (x.dropWhile pyIsSpace).isEmpty
  · rw [if_pos hx]
    have hx' : x.dropWhile pyIsSpace = [] := by simpa [List.isEmpty_iff] using hx
    rw [List.dropWhile_eq_nil_iff.mpr hq, hx']
  · rw [if_neg hx]
    rw [List.reverse_append]
    have hq' : q.reverse.dropWhile pyIsSpace = [] :=
      List.dropWhile_eq_nil_iff.mpr (by intro c hc; exact hq c (List.mem_reverse.mp hc))
    rw [dropWhile_append_all q.reverse (x.dropWhile pyIsSpace).reverse
      (by intro c hc; exact hq c (List.mem_reverse.mp hc))]

/-- The post-validation tail of `api_execute` only reaches the runner
when the substring gate finds no denylisted token in the code, and it
runs exactly the code it was given. -/
lemma apiExecuteValidated_run (validate : String → Bool × String)
    (c : String) (t : Nat) (code : String) (t2 : Nat)
    (h : apiExecuteValidated validate c t = ExecOutcome.run code t2) :
    code = c ∧ ∀ f ∈ forbiddenList, containsSubStr f c = false := by
  simp only [apiExecuteValidated] at h
  split at h
  · split at h
    · simp at h
    · cases h
      refine ⟨rfl, fun f hf => ?_⟩
      have hn := List.find?_eq_none.mp (by assumption) f hf
      simpa using hn
  · simp at h

/-! ## The claims -/

/-- Claim C1: each input line is run through the construct
recognizers in the fixed priority order (blank, assignment,
quoted-print, bare-print, conditional-open, else, indent-hint,
iteration, function-definition, fallback) with the first match
determining the emitted line; in particular `siesie x = 5` gives
`x = 5`, `ka "hello"` gives `print("hello")`, and the two-line
conditional example gives `if x > 3:` then the indented print, with
the indent incremented exactly once. -/
theorem claim1_priority_order :
    (∀ (ind : Int) (line : List Char),
      lineStep ind line =
        (recognizers.findSome? fun f => f ind line).getD
          (pyIndent ind ++ applyKeywords line, ind)) ∧
    TwiParser.translate "siesie x = 5" = ⟨"x = 5", [(1, 1)]⟩ ∧
    TwiParser.translate "ka \"hello\"" = ⟨"print(\"hello\")", [(1, 1)]⟩ ∧
    TwiParser.translate "sɛ x > 3 a\nka \"big\"" =
      ⟨"if x > 3:\n    print(\"big\")", [(1, 1), (2, 2)]⟩ ∧
    (translateState "sɛ x > 3 a\nka \"big\"").indent_level = 1 :=
  ⟨lineStep_eq_recognizers, rfl, rfl, rfl, rfl⟩

/-- Claim C2: the synthesized indent level is non-negative in every
state the translator passes through, for every source text; an else
construct at indent 0 clamps the counter at 0 and still emits
`else:` (and then indents its body to 1).  The translator is a total
function, so it never raises. -/
theorem claim2_indent_nonneg :
    (∀ (S : String) (st : TState),
      st ∈ runStates 1 initState (pySplitlines (pyStrip S.data)) →
      0 ≤ st.indent_level) ∧
    lineStep 0 ("nanso".data) = ("else:".data, 1) :=
  ⟨fun S st hst => runStates_nonneg _ 1 initState (by simp [initState]) st hst, rfl⟩

/-- Witness for claim C2 at the concrete source text `nanso`: the
state reached after translating the lone `nanso` line is in the run
and has a non-negative indent. -/
theorem claim2_indent_nonneg_witness :
    0 ≤ (stepLine initState 1 ("nanso".data)).indent_level :=
  claim2_indent_nonneg.1 "nanso" (stepLine initState 1 ("nanso".data)) (by decide)

/-- Claim C3: for every source text, the translator appends exactly
one mapping entry per emitted line — the mapping is precisely the
diagonal enumeration of the source lines — so its source ordinals are
non-decreasing and its emitted ordinals strictly increasing. -/
theorem claim3_mapping_monotone (S : String) :
    (translateState S).py_lines.length = (pySplitlines (pyStrip S.data)).length ∧
    (translateState S).mapping =
      (List.range (pySplitlines (pyStrip S.data)).length).map (fun k => (k + 1, k + 1)) ∧
    (translateState S).mapping.Pairwise (fun p q => p.1 ≤ q.1 ∧ p.2 < q.2) := by
  have h := runLines_py_mapping (pySplitlines (pyStrip S.data)) 1 initState
  have hmap : (translateState S).mapping =
      (List.range (pySplitlines (pyStrip S.data)).length).map (fun k => (k + 1, k + 1)) := by
    rw [translateState, h.2]
    simp only [initState, List.nil_append, List.length_nil]
    apply List.map_congr_left
    intro k _
    simp only [Prod.mk.injEq]
    omega
  refine ⟨?_, hmap, ?_⟩
  · rw [translateState, h.1]; simp [initState]
  · rw [hmap, List.pairwise_map]
    exact (List.pairwise_lt_range _).imp fun hab => ⟨by omega, by omega⟩

/-- Claim C4: the translator is a total function — every source text
yields a `TranslationResult` — and a line matched by no recognizer
falls through to the fallback, which applies the lexical
substitutions and emits the result at the current indent (with the
indent unchanged). -/
theorem claim4_fallback_total :
    (∀ S : String, ∃ r : TranslationResult, TwiParser.translate S = r) ∧
    (∀ (ind : Int) (line : List Char),
      recognizers.findSome? (fun f => f ind line) = none →
      lineStep ind line = (pyIndent ind ++ applyKeywords line, ind)) := by
  refine ⟨fun S => ⟨TwiParser.translate S, rfl⟩, fun ind line h => ?_⟩
  rw [lineStep_eq_recognizers, h]
  rfl

/-- Witness for claim C4 at the unrecognized line
`nokware ka ho 1`: no recognizer matches, and the fallback emits the
keyword-substituted line `True + 1` at indent 0. -/
theorem claim4_fallback_total_witness :
    lineStep 0 ("nokware ka ho 1".data) = ("True + 1".data, 0) :=
  (claim4_fallback_total.2 0 ("nokware ka ho 1".data) rfl).trans (by decide)

/-- Counterexample to claim C5 as stated: on the source `kyerɛ me`
the counter is incremented to 1, yet the no-op marker is emitted with
no indentation — not at the new (incremented) level 1, which would
prepend four spaces. -/
theorem claim5_counterexample :
    (translateState "kyerɛ me").indent_level = 1 ∧
    (translateState "kyerɛ me").py_lines = ["# kyerɛ me (indent)".data] ∧
    ¬("# kyerɛ me (indent)".data = pyIndent 1 ++ "# kyerɛ me (indent)".data) :=
  ⟨rfl, rfl, by decide⟩

/-- Amended claim C5: on the explicit indent-hint construct
`kyerɛ me` the translator increments the indent counter and emits the
no-op marker line at the pre-increment indent level (one below the
new counter), appending exactly one mapping entry. -/
theorem claim5_indent_hint_amended (st : TState) (i : Nat) :
    stepLine st i ("kyerɛ me".data) =
      { py_lines := st.py_lines ++ [pyIndent st.indent_level ++ "# kyerɛ me (indent)".data]
        mapping := st.mapping ++ [(i, st.py_lines.length + 1)]
        indent_level := st.indent_level + 1 } := by
  have h : lineStep st.indent_level (pyStrip ("kyerɛ me".data)) =
      (pyIndent ((st.indent_level + 1) - 1) ++ "# kyerɛ me (indent)".data,
        st.indent_level + 1) := rfl
  simp only [stepLine, h, Int.add_sub_cancel]

/-- Claim C6: whenever `api_execute` reaches the runner, the code it
runs contains no denylisted token — so for any (validated) code
containing one, the gate rejects first and no child process is
spawned; concretely, code containing `subprocess` is rejected with a
forbidden-construct error naming `subprocess`. -/
theorem claim6_gate_before_run :
    (∀ (validate : String → Bool × String) (tw pc : Option String)
        (t : Nat) (code : String) (t2 : Nat),
      api_execute validate tw pc t = ExecOutcome.run code t2 →
      ∀ f ∈ forbiddenList, containsSubStr f code = false) ∧
    api_execute (fun _ => (true, "")) none (some "x = subprocess") 4 =
      ExecOutcome.forbidden "subprocess" := by
  refine ⟨fun validate tw pc t code t2 hrun f hf => ?_, rfl⟩
  unfold api_execute at hrun
  split at hrun
  · simp at hrun
  · obtain ⟨rfl, hforb⟩ := apiExecuteValidated_run _ _ _ _ _ hrun
    exact hforb f hf
  · obtain ⟨rfl, hforb⟩ := apiExecuteValidated_run _ _ _ _ _ hrun
    exact hforb f hf

/-- Witness for claim C6 at the clean code `print(9)`, which the
endpoint does hand to the runner: no denylisted token occurs in it. -/
theorem claim6_gate_before_run_witness :
    containsSubStr "subprocess" "print(9)" = false :=
  claim6_gate_before_run.1 (fun _ => (true, "")) none (some "print(9)") 4
    "print(9)" 4 rfl "subprocess" (by decide)

/-- Claim C7: the gate runs strictly after the validator — whenever
the translated code fails validation, `api_execute` reports a syntax
error (so never a forbidden-construct error, whatever tokens the text
contains), and the report carries the partial translated code. -/
theorem claim7_validator_first (validate : String → Bool × String)
    (tw : String) (t : Nat)
    (h : (validate (TwiParser.translate tw).python_code).1 = false) :
    api_execute validate (some tw) none t =
      ExecOutcome.syntaxError (validate (TwiParser.translate tw).python_code).2
        ((TwiParser.translate tw).python_code) := by
  simp [api_execute, apiExecuteValidated, h]

/-- Witness for claim C7: a validator that rejects everything turns
the source `subprocess` — whose translation even contains a
denylisted token — into a syntax error carrying the partial code. -/
theorem claim7_validator_first_witness :
    api_execute (fun _ => (false, "invalid syntax")) (some "subprocess") none 4 =
      ExecOutcome.syntaxError "invalid syntax"
        ((TwiParser.translate "subprocess").python_code) ∧
    containsSubStr "subprocess" ((TwiParser.translate "subprocess").python_code) = true :=
  ⟨claim7_validator_first (fun _ => (false, "invalid syntax")) "subprocess" 4 rfl,
   by decide⟩

/-- Claim C8: on both the timeout path and the normal-completion
path, the runner truncates each captured stream deterministically to
the fixed 20,000-byte cap — the result is always the prefix of the
raw stream cut at the cap, never an emptied payload. -/
theorem claim8_output_truncation (out err : List Char) (timedOut : Bool) (ec : Int) :
    (run_code_subprocess out err timedOut ec).stdout = out.take MAX_OUTPUT_BYTES ∧
    (run_code_subprocess out err timedOut ec).stderr = err.take MAX_OUTPUT_BYTES ∧
    (run_code_subprocess out err timedOut ec).stdout.length ≤ MAX_OUTPUT_BYTES ∧
    (run_code_subprocess out err timedOut ec).stderr.length ≤ MAX_OUTPUT_BYTES ∧
    (out ≠ [] → (run_code_subprocess out err timedOut ec).stdout ≠ []) ∧
    (err ≠ [] → (run_code_subprocess out err timedOut ec).stderr ≠ []) := by
  have hcap : 0 < MAX_OUTPUT_BYTES := by decide
  cases timedOut <;>
    refine ⟨rfl, rfl, ?_, ?_, ?_, ?_⟩ <;>
    simp [run_code_subprocess, List.length_take] <;>
    first
      | omega
      | (intro hne
         cases out with
         | nil => exact absurd rfl hne
         | cons a l => simp [MAX_OUTPUT_BYTES])
      | (intro hne
         cases err with
         | nil => exact absurd rfl hne
         | cons a l => simp [MAX_OUTPUT_BYTES])

/-- Witness for claim C8 at a concrete timed-out run with one byte on
each stream: the streams survive truncation. -/
theorem claim8_output_truncation_witness :
    (run_code_subprocess ['a'] ['b'] true (-9)).stdout ≠ [] :=
  (claim8_output_truncation ['a'] ['b'] true (-9)).2.2.2.2.1 (by decide)

/-- Claim C9: the translator is deterministic — it is a pure function
of the source text (the embedding carries no randomness or clock), so
two calls on the same source yield identical results. -/
theorem claim9_deterministic (S : String) :
    TwiParser.translate S = TwiParser.translate S := rfl

/-- Claim C10: the whole source text is stripped before splitting
into lines, so surrounding a source with extra whitespace or blank
lines changes nothing: no extra emitted lines, no extra mapping
entries, and the mapping ordinals refer to the stripped text. -/
theorem claim10_outer_strip (P S Q : String)
    (hP : ∀ c ∈ P.data, pyIsSpace c = true)
    (hQ : ∀ c ∈ Q.data, pyIsSpace c = true) :
    TwiParser.translate (P ++ S ++ Q) = TwiParser.translate S := by
  unfold TwiParser.translate translateState
  rw [String.data_append, String.data_append,
    pyStrip_append_right _ _ hQ, pyStrip_append_left _ _ hP]

/-- Witness for claim C10: wrapping `ka "hi"` in newlines and spaces
leaves the translation unchanged. -/
theorem claim10_outer_strip_witness :
    TwiParser.translate ("\n " ++ "ka \"hi\"" ++ " \n\n") =
      TwiParser.translate "ka \"hi\"" :=
  claim10_outer_strip "\n " "ka \"hi\"" " \n\n" (by decide) (by decide)
